import Mathlib

/-!
# GAIA MUD server: verification of the core claims

A shallow embedding of the GAIA server's core subsystems, translated from
the TypeScript sources:

* `src/modules/world/index.ts` — the world cache and inheritance-aware
  attribute resolution (`WorldManager.getAttributeValue`);
* `src/modules/gLanguage/lexer.ts`, `parser.ts`, `interpreter.ts`,
  `gStdLib.ts`, `index.ts` — the G softcode language pipeline;
* `src/modules/inputBinder/index.ts` — command binding.

Numbers are modelled as integers (`Int`); no property below depends on
non-integral numeric results.  JavaScript reference identity for runtime
arrays (G lists) is modelled by an allocation counter carried in the
evaluation state: every freshly constructed list receives a fresh tag, and
two values are `===`-equal in the list case exactly when their tags agree.
Recursive evaluation is fuel-indexed (structural recursion on an explicit
`Nat`), mirroring the shape of the asynchronous mutual recursion in the
source; fuel exhaustion is a dedicated error that no theorem below relies
on.  Executed commands are recorded in an observation trace so that claims
of the form "this branch is never evaluated" become statements about the
trace.
-/

set_option maxHeartbeats 1000000
set_option maxRecDepth 100000

namespace Gaia

/-! ## G runtime values

`core/types.ts`: `GValue = string | number | boolean | GList | GMap |
GameObject | GCommand | null` (plus the runtime `undefined` that escapes
from `getAttributeValue`).  `GMap` is never constructed anywhere in the
sources and is omitted.  A `GameObject` value is identified by its object
id (the in-memory cache holds one reference per id, so two handles to the
same id are reference-equal).  `GCommand.func` is typed `string` in the
source but holds an arbitrary runtime value on the parser path for heads
such as `true` (see `GParser.parseExpression` lines 54-76), so `func` is a
`GValue` here; the `raw` debug field is not modelled. -/

mutual
inductive GValue where
  | str (s : String)
  | num (n : Int)
  | bool (b : Bool)
  | null
  | undef
  | list (ref : Nat) (elems : List GValue)
  | obj (id : String)
  | cmd (c : GCmd)
  deriving Repr

inductive GCmd where
  | mk (func : GValue) (args : List GValue)
  deriving Repr
end

def GCmd.func : GCmd → GValue
  | .mk f _ => f

def GCmd.args : GCmd → List GValue
  | .mk _ a => a

/-- Attribute slots: `core/types.ts` allows either a raw `GValue` or an
`Attribute` wrapper `{ value: ... }`. -/
inductive GAttr where
  | direct (v : GValue)
  | wrapped (v : GValue)
  deriving Repr

/-- `core/types.ts` `GameObject`, restricted to the semantically relevant
fields (`name`, `description`, `ownerId`, `contentIds` and the timestamps
play no role in any claim). -/
structure GameObject where
  id : String
  parentIds : List String
  attributes : List (String × GAttr)
  locationId : Option String := none
  deriving Repr

/-! ## Small self-contained helpers (Boolean membership, lookups) -/

/-- `Set.has` on the visited set of object ids. -/
def memStr (x : String) : List String → Bool
  | [] => false
  | y :: r => (x == y) || memStr x r

@[simp] theorem memStr_nil (x : String) : memStr x [] = false := rfl

@[simp] theorem memStr_cons (x y : String) (r : List String) :
    memStr x (y :: r) = ((x == y) || memStr x r) := rfl

/-- Parent ids not yet in the visited set (the enqueue filter of
`getAttributeValue`). -/
def filterNotVis (l vis : List String) : List String :=
  match l with
  | [] => []
  | p :: r => if memStr p vis then filterNotVis r vis else p :: filterNotVis r vis

theorem filterNotVis_length_le (l vis : List String) :
    (filterNotVis l vis).length ≤ l.length := by
  induction l with
  | nil => simp [filterNotVis]
  | cons p r ih =>
    simp only [filterNotVis]
    split
    · exact Nat.le_succ_of_le ih
    · simpa using Nat.succ_le_succ ih

/-- The world cache lookup (`WorldManager.getObjectById`, restricted to the
in-memory map; a miss in the cache backed by a missing document resolves to
`none`). -/
def findObj (w : List GameObject) (i : String) : Option GameObject :=
  match w with
  | [] => none
  | o :: r => if o.id == i then some o else findObj r i

/-- Own-attribute lookup with the `Attribute`-wrapper unwrap performed by
`getAttributeValue` (`(typeof attr === 'object' && 'value' in attr) ?
attr.value : attr`). -/
def lookupAttr (o : GameObject) (name : String) : Option GValue :=
  match o.attributes.find? (fun p => p.1 == name) with
  | some p =>
    match p.2 with
    | .direct v => some v
    | .wrapped v => some v
  | none => none

/-! ## Inheritance-resolved attribute lookup (`WorldManager.getAttributeValue`)

The source walks a growing queue with a head index and a visited set:
dequeue, skip if visited, mark visited, return the own attribute if
present, otherwise enqueue the unvisited parents in listed order.  The
fuel argument bounds the number of loop iterations; the potential function
below yields an always-sufficient bound, which is what claim C10 is
about. -/

/-- Weight of one object: one dequeue-step plus one enqueue per parent. -/
def objWeight (o : GameObject) : Nat := 1 + o.parentIds.length

/-- Total weight of the not-yet-visited objects of the world. -/
def unvisitedWeight (w : List GameObject) (vis : List String) : Nat :=
  match w with
  | [] => 0
  | o :: r => (if memStr o.id vis then 0 else objWeight o) + unvisitedWeight r vis

/-- Loop potential: pending queue entries plus the weight of everything the
traversal could still first-visit.  Every loop iteration strictly decreases
it. -/
def potential (w : List GameObject) (q vis : List String) : Nat :=
  q.length + unvisitedWeight w vis

/-- The BFS loop of `WorldManager.getAttributeValue` (lines 101-124), with
an explicit iteration budget.  `none` means the budget ran out; `some r`
means the loop finished with result `r`. -/
def getAttributeValueLoop (w : List GameObject) (attrName : String) :
    Nat → List String → List String → Option (Option GValue)
  | 0, _, _ => none
  | _ + 1, [], _ => some none
  | fuel + 1, i :: q, vis =>
    match memStr i vis with
    | true => getAttributeValueLoop w attrName fuel q vis
    | false =>
      match findObj w i with
      | none => getAttributeValueLoop w attrName fuel q (i :: vis)
      | some o =>
        match lookupAttr o attrName with
        | some v => some (some v)
        | none =>
          getAttributeValueLoop w attrName fuel
            (q ++ filterNotVis o.parentIds (i :: vis)) (i :: vis)

/-- `WorldManager.getAttributeValue`: breadth-first, left-to-right
inheritance-resolved read.  `none` is "absent", distinct from a stored
`GValue.null`. -/
def getAttributeValue (w : List GameObject) (objId attrName : String) :
    Option GValue :=
  (getAttributeValueLoop w attrName (potential w [objId] [] + 1) [objId] []).getD none

/-- The id order in which the BFS first examines queue entries, attribute
checks disabled — the "breadth-first left-to-right traversal of the
inheritance graph" of the specification. -/
def bfsVisitOrder (w : List GameObject) :
    Nat → List String → List String → Option (List String)
  | 0, _, _ => none
  | _ + 1, [], _ => some []
  | fuel + 1, i :: q, vis =>
    match memStr i vis with
    | true => bfsVisitOrder w fuel q vis
    | false =>
      match findObj w i with
      | none =>
        match bfsVisitOrder w fuel q (i :: vis) with
        | some l => some (i :: l)
        | none => none
      | some o =>
        match bfsVisitOrder w fuel
            (q ++ filterNotVis o.parentIds (i :: vis)) (i :: vis) with
        | some l => some (i :: l)
        | none => none

/-- Specification-side reading, for the refinement claim C1:
"`getAttribute(O, N)` equals the first
definition encountered by left-right BFS across O's inheritance closure" —
the first object in `bfsVisitOrder` whose own attribute mapping contains
the name wins, and its raw value is returned. -/
def specGetAttributeBFS (w : List GameObject) (objId attrName : String) :
    Option GValue :=
  ((bfsVisitOrder w (potential w [objId] [] + 1) [objId] []).getD []).findSome?
    (fun i => (findObj w i).bind (fun o => lookupAttr o attrName))

/-! ## String helpers

All string manipulation is done over `String.data` with structurally
recursive list functions so that every definition reduces inside the
kernel.  The helpers mirror the exact JavaScript operations used by the
sources. -/

/-- `Char.toLowerCase` for the ASCII range (all G identifiers are ASCII). -/
def lowerChar (c : Char) : Char :=
  if 'A' ≤ c ∧ c ≤ 'Z' then Char.ofNat (c.toNat + 32) else c

/-- `String.prototype.toLowerCase` (ASCII). -/
def lowerStr (s : String) : String := ⟨s.data.map lowerChar⟩

/-- `s.startsWith(c)` for a single character. -/
def strHeadIs (s : String) (c : Char) : Bool :=
  match s.data with
  | [] => false
  | d :: _ => d == c

/-- `s.substring(1)`. -/
def strDrop1 (s : String) : String := ⟨s.data.drop 1⟩

/-- One chunk of `s.split(c)`. -/
def splitCharAux (c : Char) : List Char → List Char → List String
  | [], acc => [⟨acc.reverse⟩]
  | d :: r, acc =>
    if d == c then ⟨acc.reverse⟩ :: splitCharAux c r []
    else splitCharAux c r (d :: acc)

/-- `s.split(c)` (always at least one chunk, like JavaScript). -/
def splitChar (c : Char) (s : String) : List String := splitCharAux c s.data []

/-- JavaScript whitespace as far as the sources exercise it (`\s` and
`trim`). -/
def isWsChar (c : Char) : Bool :=
  c == ' ' || c == '\t' || c == '\r' || c == '\n'

/-- `s.trim()`. -/
def jsTrim (s : String) : String :=
  ⟨((s.data.dropWhile isWsChar).reverse.dropWhile isWsChar).reverse⟩

/-- Digits / decimal-integer parse used by `parseInt` on the lexer's
number tokens (shape `-?[0-9]+(\.[0-9]+)?`, fraction truncated — no claim
involves non-integral numerics). -/
def digitsToNat (l : List Char) (acc : Nat) : Nat :=
  match l with
  | [] => acc
  | c :: r =>
    if c.isDigit then digitsToNat r (acc * 10 + (c.toNat - '0'.toNat))
    else acc

def parseIntStr (s : String) : Int :=
  match s.data with
  | '-' :: r => -(digitsToNat r 0 : Int)
  | l => (digitsToNat l 0 : Int)

/-! ## G lexer (`gLanguage/lexer.ts`)

Tokens carry only their type and value; line/column bookkeeping is not
semantically relevant.  Whitespace and comments are skipped without
emitting tokens (the pushes are commented out in the source), and the
final `EOF` token is represented by the end of the list. -/

inductive Token where
  | lbracket
  | rbracket
  | comma
  | op (s : String)
  | strTok (s : String)
  | numTok (s : String)
  | objref (s : String)
  | symbol (s : String)
  deriving Repr, DecidableEq

/-- First character of the symbol regex `[a-zA-Z_+\-*\/%<>=!?^&]`. -/
def symStart (c : Char) : Bool :=
  c.isAlpha || c == '_' || c == '+' || c == '-' || c == '*' || c == '/' ||
  c == '%' || c == '<' || c == '>' || c == '=' || c == '!' || c == '?' ||
  c == '^' || c == '&'

/-- Continuation of the symbol regex `[a-zA-Z0-9_+\-*\/%<>=!?^&:]`. -/
def symCont (c : Char) : Bool := symStart c || c.isDigit || c == ':'

/-- Object-reference body `[a-zA-Z0-9_:\-]`. -/
def refChar (c : Char) : Bool :=
  c.isAlpha || c.isDigit || c == '_' || c == ':' || c == '-'

/-- String-literal scan: consume up to the closing quote, handling the
escape sequences `\n \t \" \\` (other escaped characters are kept
literally).  An unterminated literal is closed at end of input (the source
logs an error and still pushes the token). -/
def lexStr : Nat → List Char → List Char → (String × List Char)
  | 0, rest, acc => (⟨acc.reverse⟩, rest)
  | _ + 1, [], acc => (⟨acc.reverse⟩, [])
  | fuel + 1, c :: rest, acc =>
    if c == '"' then (⟨acc.reverse⟩, rest)
    else if c == '\\' then
      match rest with
      | [] => (⟨acc.reverse⟩, [])
      | e :: rest' =>
        let ch := if e == 'n' then '\n'
                  else if e == 't' then '\t'
                  else if e == '"' then '"'
                  else if e == '\\' then '\\'
                  else e
        lexStr fuel rest' (ch :: acc)
    else lexStr fuel rest (c :: acc)

/-- The main tokenizer loop (`GLexer.tokenize`), one case per branch of
the source's `while` body, in source order. -/
def tokenizeGo : Nat → List Char → List Token
  | 0, _ => []
  | _ + 1, [] => []
  | fuel + 1, c :: rest =>
    if isWsChar c then tokenizeGo fuel rest
    else if c == '/' && rest.head? == some '/' then
      tokenizeGo fuel ((rest.drop 1).dropWhile (fun d => d != '\n'))
    else if c == '[' then .lbracket :: tokenizeGo fuel rest
    else if c == ']' then .rbracket :: tokenizeGo fuel rest
    else if c == ',' then .comma :: tokenizeGo fuel rest
    else if c == '@' || c == '.' then .op ⟨[c]⟩ :: tokenizeGo fuel rest
    else if c == '"' then
      let (s, rest') := lexStr (rest.length + 1) rest []
      .strTok s :: tokenizeGo fuel rest'
    else if c == '#' then
      let body := rest.takeWhile refChar
      .objref ⟨'#' :: body⟩ :: tokenizeGo fuel (rest.drop body.length)
    else if c.isDigit ||
        (c == '-' && (rest.head?.map Char.isDigit).getD false) then
      let (sign, rest₁) := if c == '-' then ([c], rest) else ([], c :: rest)
      let intPart := rest₁.takeWhile Char.isDigit
      let rest₂ := rest₁.drop intPart.length
      let (fracPart, rest₃) :=
        match rest₂ with
        | '.' :: d :: r =>
          if d.isDigit then
            let ds := (d :: r).takeWhile Char.isDigit
            ('.' :: ds, (d :: r).drop ds.length)
          else ([], rest₂)
        | _ => ([], rest₂)
      .numTok ⟨sign ++ intPart ++ fracPart⟩ :: tokenizeGo fuel rest₃
    else if symStart c then
      let body := rest.takeWhile symCont
      .symbol ⟨c :: body⟩ :: tokenizeGo fuel (rest.drop body.length)
    else tokenizeGo fuel rest

/-- `GLexer.tokenize`: every loop iteration consumes at least one input
character, so the character count bounds the iterations. -/
def tokenize (s : String) : List Token :=
  tokenizeGo (s.data.length + 1) s.data

/-! ## Failures

One constructor per distinct `throw new Error(...)` site exercised by the
embedding, plus the fuel-exhaustion artifact of the model and the
JavaScript `TypeError` raised when `getFunction` calls `.toLowerCase()` on
a non-string command head. -/

inductive GError where
  | fuelExhausted
  | depthLimit
  | parseFail (msg : String)
  | objectNotFound (id : String)
  | attrNotExecutable (objId attrName : String)
  | funcNotFound (name : String)
  | varNotExecutable (name : String)
  | jsTypeError
  deriving Repr, DecidableEq

/-- `error.message` as the input binder reports it to the session. -/
def errMessage : GError → String
  | .fuelExhausted => "Interpreter: evaluation budget exhausted."
  | .depthLimit =>
    "G execution: Max call depth exceeded. Possible infinite recursion."
  | .parseFail m => m
  | .objectNotFound id =>
    "Interpreter: Object not found for G execution: " ++ id
  | .attrNotExecutable o a =>
    "Attribute \"" ++ a ++ "\" on object \"" ++ o ++
    "\" is not executable G code or not found."
  | .funcNotFound n =>
    "Interpreter: G Function, command type, or resolvable entity not found: " ++ n
  | .varNotExecutable n =>
    "Interpreter: Variable \"" ++ n ++
    "\" does not contain executable G code string."
  | .jsTypeError => "TypeError: name.toLowerCase is not a function"

/-! ## G parser (`gLanguage/parser.ts`)

Recursive descent over the token list.  `parseArgument` reports, besides
the value, whether the last token consumed was of type `Symbol`,
`Operator` or `ObjectRef` — the check `parseExpression` performs (via
`this.tokens[this.cursor-1]`) to decide whether the head element is a
callee or the first element of an implicit data list.  Parse errors from
`consume`/`parsePrimary` are thrown in the source and modelled as
`Except.error`; the top-level loop skips unexpected tokens with a
warning. -/

/-- `GParser.parsePrimary`.  Returns (value, callee-token?, rest). -/
def parsePrimary : List Token → Except GError (GValue × Bool × List Token)
  | [] => .error (.parseFail "Parser: Unexpected token in expression.")
  | t :: rest =>
    match t with
    | .strTok s => .ok (.str s, false, rest)
    | .numTok v => .ok (.num (parseIntStr v), false, rest)
    | .objref s => .ok (.str s, true, rest)
    | .symbol v =>
      let lv := lowerStr v
      if lv == "true" then .ok (.bool true, true, rest)
      else if lv == "false" then .ok (.bool false, true, rest)
      else if lv == "nil" || lv == "null" then .ok (.null, true, rest)
      else .ok (.str v, true, rest)
    | .op s => .ok (.str s, true, rest)
    | _ => .error (.parseFail "Parser: Unexpected token in expression.")

mutual

/-- `GParser.parseExpression`: one bracketed list. -/
def parseExpression : Nat → List Token → Except GError (GCmd × List Token)
  | 0, _ => .error (.parseFail "Parser: token budget exhausted.")
  | fuel + 1, toks =>
    match toks with
    | .lbracket :: rest =>
      match rest with
      | .rbracket :: rest' => .ok (.mk (.str "list") [], rest')
      | _ =>
        match parseArgument fuel rest with
        | .error e => .error e
        | .ok (headElement, calleeTok, rest₁) =>
          match parseArgs fuel rest₁ with
          | .error e => .error e
          | .ok (args, rest₂) =>
            match rest₂ with
            | .rbracket :: rest₃ =>
              match headElement, calleeTok with
              | .str s, true => .ok (.mk (.str s) args, rest₃)
              | h, false => .ok (.mk (.str "list") (h :: args), rest₃)
              | h, true => .ok (.mk h args, rest₃)
            | _ => .error (.parseFail "Parser: Expect ']' to end an expression.")
    | _ => .error (.parseFail "Parser: Expect '[' to start an expression.")

/-- The argument loop of `parseExpression` (lines 80-89): stop before `]`
or at end of input; consume at most one comma per iteration; a trailing
comma before `]` is allowed. -/
def parseArgs : Nat → List Token → Except GError (List GValue × List Token)
  | 0, _ => .error (.parseFail "Parser: token budget exhausted.")
  | fuel + 1, toks =>
    match toks with
    | [] => .ok ([], [])
    | .rbracket :: _ => .ok ([], toks)
    | t :: rest₀ =>
      let rest := if t == Token.comma then rest₀ else toks
      match rest with
      | .rbracket :: _ => .ok ([], rest)
      | _ =>
        match parseArgument fuel rest with
        | .error e => .error e
        | .ok (v, _, rest₁) =>
          match parseArgs fuel rest₁ with
          | .error e => .error e
          | .ok (vs, rest₂) => .ok (v :: vs, rest₂)

/-- `GParser.parseArgument`: nested expression or primary literal. -/
def parseArgument : Nat → List Token → Except GError (GValue × Bool × List Token)
  | 0, _ => .error (.parseFail "Parser: token budget exhausted.")
  | fuel + 1, toks =>
    match toks with
    | .lbracket :: _ =>
      match parseExpression fuel toks with
      | .error e => .error e
      | .ok (c, rest) => .ok (.cmd c, false, rest)
    | _ => parsePrimary toks

end

/-- The top-level loop of `GParser.parse`: each G script is a sequence of
bracketed commands; stray tokens before a `[` are skipped with a
warning. -/
def parseTop : Nat → List Token → Except GError (List GCmd)
  | 0, _ => .error (.parseFail "Parser: token budget exhausted.")
  | _ + 1, [] => .ok []
  | fuel + 1, toks@(t :: rest) =>
    match t with
    | .lbracket =>
      match parseExpression fuel toks with
      | .error e => .error e
      | .ok (c, rest') =>
        match parseTop fuel rest' with
        | .error e => .error e
        | .ok cs => .ok (c :: cs)
    | _ => parseTop fuel rest

/-- `GEngine.parse`: tokenize then parse.  The internal budget is
generous: the recursion depth of the descent is bounded by the token
count. -/
def parseG (code : String) : Except GError (List GCmd) :=
  let toks := tokenize code
  parseTop (4 * toks.length + 8) toks

/-! ## Coercions and pure standard-library functions (`gLanguage/gStdLib.ts`) -/

/-- `Number(v) || 0`, as the arithmetic builtins use it.  Integer strings
parse to their value; anything unparseable (including the fractional
strings outside this integer model) collapses to `0` via the `|| 0`. -/
def toNum (v : GValue) : Int :=
  match v with
  | .num n => n
  | .bool b => if b then 1 else 0
  | .str s =>
    let t := (jsTrim s).data
    match t with
    | [] => 0
    | '-' :: r => if r ≠ [] && r.all Char.isDigit then -(digitsToNat r 0 : Int) else 0
    | l => if l.all Char.isDigit then (digitsToNat l 0 : Int) else 0
  | _ => 0

/-- The falsiness test written out (twice, identically) in the `if` and
`not` builtins: `c === false || c === 0 || c === null || c === ""`.  Note
that the runtime `undefined` is **not** in this list and therefore counts
as truthy here. -/
def isFalsyJS (v : GValue) : Bool :=
  match v with
  | .bool false => true
  | .num 0 => true
  | .null => true
  | .str "" => true
  | _ => false

/-- JavaScript `===` on G runtime values: primitives value-wise, arrays
(G lists) by allocation tag (reference identity), object handles by cache
identity (one cached reference per object id).  Command values are parse
nodes compared by reference; distinct references are assumed, which holds
for every value arising in the programs considered here. -/
def jsStrictEq (a b : GValue) : Bool :=
  match a, b with
  | .str x, .str y => x == y
  | .num x, .num y => x == y
  | .bool x, .bool y => x == y
  | .null, .null => true
  | .undef, .undef => true
  | .list i _, .list j _ => i == j
  | .obj x, .obj y => x == y
  | _, _ => false

/-- JavaScript `String(v)` on the values of this model (arrays join their
elements with `","`, `null`/`undefined` inside an array render empty). -/
def jsToString (v : GValue) : String :=
  match v with
  | .str s => s
  | .num n => toString n
  | .bool b => if b then "true" else "false"
  | .null => "null"
  | .undef => "undefined"
  | .list _ xs => jsToStringElems xs
  | .obj _ => "[object Object]"
  | .cmd _ => "[object Object]"
where
  jsToStringElems : List GValue → String
  | [] => ""
  | [x] => jsToStringInner x
  | x :: y :: r => jsToStringInner x ++ "," ++ jsToStringElems (y :: r)
  jsToStringInner : GValue → String
  | .null => ""
  | .undef => ""
  | .str s => s
  | .num n => toString n
  | .bool b => if b then "true" else "false"
  | .list _ xs => jsToStringElems xs
  | .obj _ => "[object Object]"
  | .cmd _ => "[object Object]"

/-- The `+` builtin: fold the coerced arguments from `0`. -/
def plusFn (args : List GValue) : GValue :=
  .num (args.foldl (fun acc v => acc + toNum v) 0)

/-- The `-` builtin: unary minus for one argument, left fold otherwise. -/
def minusFn (args : List GValue) : GValue :=
  match args with
  | [] => .num 0
  | [a] => .num (-(toNum a))
  | a :: rest => .num (rest.foldl (fun acc v => acc - toNum v) (toNum a))

/-- The `*` builtin (identity `1` for nonempty argument lists, `0` for
the empty one, as written in the source). -/
def mulFn (args : List GValue) : GValue :=
  match args with
  | [] => .num 0
  | _ => .num (args.foldl (fun acc v => acc * toNum v) 1)

/-- The `/` builtin (`gStdLib.ts` lines 35-43): fewer than two arguments
or a divisor that coerces to `0` yield `null` (with a logged warning) —
no error is thrown. -/
def divFn (args : List GValue) : GValue :=
  match args with
  | a :: b :: _ =>
    let divisor := toNum b
    if divisor == 0 then .null else .num (toNum a / divisor)
  | _ => .null

/-- The `concat` builtin: `args.map(String).join('')`. -/
def concatFn (args : List GValue) : GValue :=
  .str (args.foldl (fun acc v => acc ++ jsToString v) "")

/-- The string branch of `listlength`: strip `[`/`]`, split on runs of
whitespace/commas, count the nonempty chunks. -/
def countChunks (s : String) : Nat :=
  let cs := s.data.filter (fun c => c != '[' && c != ']')
  let isSep := fun c => isWsChar c || c == ','
  (cs.foldl
    (fun (p : Bool × Nat) c =>
      if isSep c then (false, p.2)
      else if p.1 then p else (true, p.2 + 1))
    (false, 0)).2

/-- The `listlength` builtin (`gStdLib.ts` lines 56-71). -/
def listlengthFn (args : List GValue) : GValue :=
  match args with
  | [] => .num 0
  | a :: _ =>
    match a with
    | .list _ xs => .num xs.length
    | .str s => .num (countChunks s)
    | _ => .num 0

/-- The `equals` builtin: `args[0] === args[1]`. -/
def equalsFn (args : List GValue) : GValue :=
  match args with
  | a :: b :: _ => .bool (jsStrictEq a b)
  | _ => .bool false

/-- The `not` builtin: the same four-case falsiness check, returned. -/
def notFn (args : List GValue) : GValue :=
  match args with
  | [] => .bool true
  | c :: _ => .bool (isFalsyJS c)

/-- The `log` builtin writes to the server log and returns `null`; the
execution of `log` commands is visible in the observation trace. -/
def logFn (_ : List GValue) : GValue := .null

/-! ## Execution contexts and evaluation state -/

/-- `GContext` with the call-depth counter the interpreter smuggles in as
`(context as any)._callDepth`.  Object references are held as the objects
themselves (the source passes `GameObject` cache references around). -/
structure GContext where
  executor : GameObject
  actor : GameObject
  thisObject : Option GameObject
  callDepth : Nat
  deriving Repr

/-- Mutable world cache, allocation counter for list reference tags, and
the observation trace of executed command heads. -/
structure EvalState where
  world : List GameObject
  allocCount : Nat
  trace : List String
  deriving Repr

/-- Evaluation monad: state threading with catchable errors.  State
changes made before a throw persist, exactly as JavaScript side effects
survive a caught exception. -/
def EvalM (α : Type) : Type := EvalState → Except GError α × EvalState

def pureE {α : Type} (a : α) : EvalM α := fun st => (.ok a, st)

def throwE {α : Type} (e : GError) : EvalM α := fun st => (.error e, st)

def bindE {α β : Type} (x : EvalM α) (f : α → EvalM β) : EvalM β :=
  fun st =>
    match x st with
    | (.ok a, st') => f a st'
    | (.error e, st') => (.error e, st')

/-- `try { x } catch (e) { h e }`. -/
def catchE {α : Type} (x : EvalM α) (h : GError → EvalM α) : EvalM α :=
  fun st =>
    match x st with
    | (.error e, st') => h e st'
    | ok => ok

def getStateE : EvalM EvalState := fun st => (.ok st, st)

def recordTrace (s : String) : EvalM Unit :=
  fun st => (.ok (), { st with trace := st.trace ++ [s] })

/-- Fresh list allocation (the `list` builtin returning a new array). -/
def allocListM (elems : List GValue) : EvalM GValue :=
  fun st =>
    (.ok (.list st.allocCount elems), { st with allocCount := st.allocCount + 1 })

/-! ## World-facing helpers of the interpreter and standard library -/

/-- `GInterpreter.resolveValue`: only the special symbols `@this`,
`@actor`, `@executor` resolve; everything else passes through (the local
variable table is commented out in the source). -/
def resolveValue (v : GValue) (ctx : GContext) : GValue :=
  match v with
  | .str s =>
    if s == "@this" then
      match ctx.thisObject with
      | some t => .obj t.id
      | none => .null
    else if s == "@actor" then .obj ctx.actor.id
    else if s == "@executor" then .obj ctx.executor.id
    else v
  | _ => v

/-- `WorldManager.resolveGObjectRef`. -/
def resolveGObjectRefPure (w : List GameObject) (s : String) (ctx : GContext) :
    Option GameObject :=
  if strHeadIs s '#' then findObj w s
  else if s == "@this" then ctx.thisObject
  else if s == "@actor" then some ctx.actor
  else if s == "@executor" then some ctx.executor
  else none

def resolveGObjectRefM (s : String) (ctx : GContext) : EvalM (Option GameObject) :=
  fun st => (.ok (resolveGObjectRefPure st.world s ctx), st)

def findObjM (i : String) : EvalM (Option GameObject) :=
  fun st => (.ok (findObj st.world i), st)

/-- Target resolution shared by `get_attr`, `set_attr` and `send`: a
string goes through `resolveGObjectRef`, an object handle is used as
given, anything else stays unresolved. -/
def resolveTarget (v : GValue) (ctx : GContext) : EvalM (Option GameObject) :=
  match v with
  | .str s => resolveGObjectRefM s ctx
  | .obj i => findObjM i
  | _ => pureE none

/-- The `get_attr` builtin: inheritance-resolved read; an absent attribute
returns the raw `undefined` of `getAttributeValue` (the source forwards it
unchanged). -/
def getAttrFn (args : List GValue) (ctx : GContext) : EvalM GValue :=
  match args with
  | a0 :: a1 :: _ =>
    bindE (resolveTarget a0 ctx) fun t? =>
      match t? with
      | none => pureE .null
      | some t =>
        bindE getStateE fun st =>
          match getAttributeValue st.world t.id (jsToString a1) with
          | some v => pureE v
          | none => pureE .undef
  | _ => pureE .null

/-- Key update on an attribute map (replace in place, else append). -/
def setAttrKey (attrs : List (String × GAttr)) (key : String) (v : GValue) :
    List (String × GAttr) :=
  match attrs with
  | [] => [(key, .direct v)]
  | p :: rest =>
    if p.1 == key then (key, .direct v) :: rest
    else p :: setAttrKey rest key v

/-- The `set_attr` builtin.  `saveObject`'s revision/timestamp handling is
not modelled; the semantically relevant effect is the synchronous write
through the cache. -/
def setAttrFn (args : List GValue) (ctx : GContext) : EvalM GValue :=
  match args with
  | a0 :: a1 :: a2 :: _ =>
    bindE (resolveTarget a0 ctx) fun t? =>
      match t? with
      | none => pureE (.bool false)
      | some t =>
        fun st =>
          (.ok (.bool true),
           { st with
             world := st.world.map fun o =>
               if o.id == t.id then
                 { o with attributes := setAttrKey o.attributes (jsToString a1) a2 }
               else o })
  | _ => pureE (.bool false)

/-- The `get_object` builtin. -/
def getObjectFn (args : List GValue) (ctx : GContext) : EvalM GValue :=
  match args with
  | (.str s) :: _ =>
    bindE (resolveGObjectRefM s ctx) fun t? =>
      match t? with
      | some t => pureE (.obj t.id)
      | none => pureE .null
  | _ => pureE .null

/-- The executable G source held by an *own* attribute, as
`GEngine.executeAttribute` extracts it: an `Attribute` wrapper whose
`value` is a string, or a directly stored string; anything else (including
an inherited-only attribute) is "not executable G code or not found". -/
def attrCode (o : GameObject) (attrName : String) : Option String :=
  match o.attributes.find? (fun p => p.1 == attrName) with
  | some p =>
    match p.2 with
    | .wrapped (.str s) => some s
    | .direct (.str s) => some s
    | _ => none
  | none => none

/-- The effective context `executeAttribute` builds for `send`-shaped
calls (`{ actor: context.actor, executor: targetObj }` spread over the
defaults): executor and `this` are the target, the depth counter restarts
at `0` because the partial context carries no `_callDepth`. -/
def sendCtx (o : GameObject) (actor : GameObject) : GContext :=
  { executor := o, actor := actor, thisObject := some o, callDepth := 0 }

/-- `if x then p else GValue.null` for the head of the branch-dispatch:
`args.length > 2 ? args[2] : null`. -/
def headOrNull : List GValue → GValue
  | [] => .null
  | v :: _ => v

/-- `b.every(item => 'func' in item)` with extraction: all elements are
command values. -/
def toCmds : List GValue → Option (List GCmd)
  | [] => some []
  | .cmd c :: rest =>
    match toCmds rest with
    | some cs => some (c :: cs)
    | none => none
  | _ => none

/-- Trace label of a command head. -/
def traceName (f : GValue) : String :=
  match f with
  | .str s => s
  | _ => "<non-string head>"

/-! ## The interpreter (`gLanguage/interpreter.ts`, `index.ts`, and the
recursive standard-library functions `if` and `send`)

The source is a web of mutually recursive asynchronous functions; the
embedding indexes that recursion by fuel.  One record holds all the
mutually recursive entry points at a given fuel level; `interpStep` builds
level `fuel + 1` from level `fuel` (every call in the source becomes a
call into the previous level, mirroring a uniform fuel decrement), and
`interp` iterates it with `Nat.rec` so that concrete evaluations reduce in
time linear in the fuel actually consumed.  At fuel `0` everything reports
exhaustion, except the two loops whose empty case does no work at all.

The spread `{...baseContext}` in `GEngine.executeAttribute` is applied
last in the source and therefore overrides the per-call defaults whenever
the caller passes a full context; the two caller shapes are reproduced at
the call sites (the full current context from the interpreter and the
input binder's explicitly built context; `sendCtx` for the `send`
builtin's partial `{actor, executor}` context, which restarts the depth
counter). -/

/-- All mutually recursive evaluation entry points, at one fuel level. -/
structure Interp where
  execute : List GCmd → GContext → Option (List GValue) → EvalM GValue
  execSeq : List GCmd → GContext → Option (List GValue) → EvalM GValue
  evalArgs : List GValue → GContext → EvalM (List GValue)
  execCmd : GCmd → GContext → List GValue → EvalM GValue
  evalG : String → GContext → EvalM GValue
  executeAttribute : GameObject → String → List GValue → GContext → EvalM GValue
  ifFn : List GValue → GContext → EvalM GValue
  sendPayload : GValue → GContext → EvalM GValue
  sendFn : List GValue → GContext → EvalM GValue

/-- Fuel level `0`: out of budget everywhere; the trivial empty cases of
the two sequence loops still answer. -/
def interpZero : Interp where
  execute := fun _ _ _ => throwE .fuelExhausted
  execSeq := fun cmds _ _ =>
    match cmds with
    | [] => pureE .null
    | _ => throwE .fuelExhausted
  evalArgs := fun args _ =>
    match args with
    | [] => pureE []
    | _ => throwE .fuelExhausted
  execCmd := fun _ _ _ => throwE .fuelExhausted
  evalG := fun _ _ => throwE .fuelExhausted
  executeAttribute := fun _ _ _ _ => throwE .fuelExhausted
  ifFn := fun _ _ => throwE .fuelExhausted
  sendPayload := fun _ _ => throwE .fuelExhausted
  sendFn := fun _ _ => throwE .fuelExhausted

/-- Fuel level `fuel + 1` in terms of level `fuel`. -/
def interpStep (prev : Interp) : Interp where
  /- `GInterpreter.execute`: depth check (`MAX_CALL_DEPTH = 100`), then
  the command sequence under the depth-incremented context. -/
  execute := fun ast ctx initArgs =>
    let depth := ctx.callDepth + 1
    if depth > 100 then throwE .depthLimit
    else prev.execSeq ast { ctx with callDepth := depth } initArgs
  /- The `for` loop of `execute`: the first command receives
  `initialArgs` when provided, every other command evaluates its own
  arguments; the last result is returned (`null` for an empty script). -/
  execSeq := fun cmds ctx initArgs =>
    match cmds with
    | [] => pureE .null
    | c :: rest =>
      bindE
        (match initArgs with
         | some ia => pureE ia
         | none => prev.evalArgs c.args ctx)
        fun as =>
          bindE (prev.execCmd c ctx as) fun r =>
            match rest with
            | [] => pureE r
            | _ => prev.execSeq rest ctx none
  /- `GInterpreter.evaluateCommandArguments`: nested commands are executed
  (their own arguments first, recursively), literals go through
  `resolveValue`. -/
  evalArgs := fun args ctx =>
    match args with
    | [] => pureE []
    | a :: rest =>
      match a with
      | .cmd c =>
        bindE (prev.evalArgs c.args ctx) fun nested =>
          bindE (prev.execCmd c ctx nested) fun v =>
            bindE (prev.evalArgs rest ctx) fun vs => pureE (v :: vs)
      | _ =>
        bindE (prev.evalArgs rest ctx) fun vs =>
          pureE (resolveValue a ctx :: vs)
  /- `GInterpreter.executeSingleCommand`, dispatching on the (already
  evaluated) argument list: standard library first, then `#`-prefixed
  object execution, then `@`-prefixed variable execution, otherwise an
  unresolved-callee failure.  A non-string head crashes inside
  `getFunction` (`name.toLowerCase()` on a non-string). -/
  execCmd := fun c ctx args =>
    bindE (recordTrace (traceName c.func)) fun _ =>
      match c.func with
      | .str name =>
        let lname := lowerStr name
        if lname == "log" then pureE (logFn args)
        else if lname == "+" then pureE (plusFn args)
        else if lname == "-" then pureE (minusFn args)
        else if lname == "*" then pureE (mulFn args)
        else if lname == "/" then pureE (divFn args)
        else if lname == "concat" then pureE (concatFn args)
        else if lname == "list" then allocListM args
        else if lname == "listlength" then pureE (listlengthFn args)
        else if lname == "get_attr" then getAttrFn args ctx
        else if lname == "set_attr" then setAttrFn args ctx
        else if lname == "if" then prev.ifFn args ctx
        else if lname == "equals" then pureE (equalsFn args)
        else if lname == "not" then pureE (notFn args)
        else if lname == "send" then prev.sendFn args ctx
        else if lname == "get_object" then getObjectFn args ctx
        else if strHeadIs name '#' then
          let parts := splitChar '.' name
          let targetObjId := parts.headD ""
          let attrName := (parts.drop 1).headD "run"
          bindE (resolveGObjectRefM targetObjId ctx) fun t? =>
            match t? with
            | some t => prev.executeAttribute t attrName args ctx
            | none => throwE (.objectNotFound targetObjId)
        else if strHeadIs name '@' && name.data.length > 1 then
          let ref := strDrop1 name
          if strHeadIs ref '#' then
            bindE (resolveGObjectRefM ref ctx) fun t? =>
              match t? with
              | some t => prev.executeAttribute t "run" args ctx
              | none => throwE (.objectNotFound ref)
          else
            match resolveValue (.str ref) ctx with
            | .str code =>
              match parseG code with
              | .ok ast => prev.execute ast ctx (some args)
              | .error e => throwE e
            | _ => throwE (.varNotExecutable ref)
        else throwE (.funcNotFound name)
      | _ => throwE .jsTypeError
  /- `GEngine.evaluate` on a source string: parse, then execute with no
  initial arguments. -/
  evalG := fun code ctx =>
    match parseG code with
    | .ok ast => prev.execute ast ctx none
    | .error e => throwE e
  /- `GEngine.executeAttribute`: read the *own* attribute of the object
  (no inheritance), require an executable G source string, parse it and
  run it under the effective context with the call's arguments as the
  first command's evaluated arguments. -/
  executeAttribute := fun o attrName args effCtx =>
    match attrCode o attrName with
    | some code =>
      match parseG code with
      | .ok ast => prev.execute ast effCtx (some args)
      | .error e => throwE e
    | none => throwE (.attrNotExecutable o.id attrName)
  /- The `if` builtin (`gStdLib.ts` lines 120-151).  Its arguments arrive
  *already evaluated* by `evaluateCommandArguments`; only a branch passed
  as a G source string or as (a list of) command values is (re)evaluated
  here, and only the taken one. -/
  ifFn := fun args ctx =>
    match args with
    | conditionResult :: thenBranch :: rest =>
      let elseBranch := headOrNull rest
      let branch := if isFalsyJS conditionResult then elseBranch else thenBranch
      match branch with
      | .null => pureE .null
      | .str s => prev.evalG s ctx
      | .cmd c => prev.execute [c] ctx none
      | .list r xs =>
        match toCmds xs with
        | some cs => prev.execute cs ctx none
        | none => pureE (.list r xs)
      | other => pureE other
    | _ => pureE .null
  /- The payload computation of `send` (`gStdLib.ts` lines 187-222): a
  string starting with `@` is dynamic content — `@#obj.attr` executes
  that attribute under the message-source object, a bare `@name` reads
  the executor's attribute (evaluating it when it is a G source string);
  everything else is delivered verbatim. -/
  sendPayload := fun msgSrc ctx =>
    match msgSrc with
    | .str s =>
      if strHeadIs s '@' then
        let refToExecute := strDrop1 s
        if strHeadIs refToExecute '#' then
          let parts := splitChar '.' refToExecute
          let objIdForMsg := parts.headD ""
          let attrForMsg := (parts.drop 1).headD "run"
          bindE (resolveGObjectRefM objIdForMsg ctx) fun mo? =>
            match mo? with
            | some mo =>
              prev.executeAttribute mo attrForMsg [] (sendCtx mo ctx.actor)
            | none =>
              pureE (.str ("Error: Could not find object " ++ objIdForMsg ++
                " for dynamic message content."))
        else
          bindE getStateE fun st =>
            match getAttributeValue st.world ctx.executor.id refToExecute with
            | some (.str code) => prev.evalG code ctx
            | some v => pureE v
            | none =>
              pureE (.str ("Error: Attribute or variable " ++ refToExecute ++
                " not found for dynamic message content."))
      else pureE msgSrc
    | v => pureE v
  /- The `send` builtin (`gStdLib.ts` lines 170-237): resolve the target,
  compute the payload, then `try { executeAttribute(target, 'on_message',
  [actor, payload], {actor, executor: target}) } catch { return null }`. -/
  sendFn := fun args ctx =>
    match args with
    | target :: msgSrc :: _ =>
      bindE (resolveTarget target ctx) fun t? =>
        match t? with
        | none => pureE .null
        | some t =>
          bindE (prev.sendPayload msgSrc ctx) fun msg =>
            catchE
              (prev.executeAttribute t "on_message"
                [.obj ctx.actor.id, msg] (sendCtx t ctx.actor))
              (fun _ => pureE .null)
    | _ => pureE .null

/-- The fuel-indexed interpreter (iterated with a bare `Nat.rec` so that
each level unfolds in one definitional step). -/
def interp (fuel : Nat) : Interp :=
  Nat.rec interpZero (fun _ prev => interpStep prev) fuel

theorem interp_zero : interp 0 = interpZero := rfl

theorem interp_succ (fuel : Nat) : interp (fuel + 1) = interpStep (interp fuel) :=
  rfl

/-- `GInterpreter.execute` at a fuel level. -/
def execute (fuel : Nat) (ast : List GCmd) (ctx : GContext)
    (initArgs : Option (List GValue)) : EvalM GValue :=
  (interp fuel).execute ast ctx initArgs

/-- `GInterpreter.evaluateCommandArguments` at a fuel level. -/
def evalArgs (fuel : Nat) (args : List GValue) (ctx : GContext) :
    EvalM (List GValue) :=
  (interp fuel).evalArgs args ctx

/-- `GInterpreter.executeSingleCommand` at a fuel level. -/
def execCmd (fuel : Nat) (c : GCmd) (ctx : GContext) (args : List GValue) :
    EvalM GValue :=
  (interp fuel).execCmd c ctx args

/-- `GEngine.evaluate` on source text at a fuel level. -/
def evalG (fuel : Nat) (code : String) (ctx : GContext) : EvalM GValue :=
  (interp fuel).evalG code ctx

/-- `GEngine.executeAttribute` at a fuel level. -/
def executeAttribute (fuel : Nat) (o : GameObject) (attrName : String)
    (args : List GValue) (effCtx : GContext) : EvalM GValue :=
  (interp fuel).executeAttribute o attrName args effCtx

/-- The `if` builtin at a fuel level. -/
def ifFn (fuel : Nat) (args : List GValue) (ctx : GContext) : EvalM GValue :=
  (interp fuel).ifFn args ctx

/-- The `send` builtin at a fuel level. -/
def sendFn (fuel : Nat) (args : List GValue) (ctx : GContext) : EvalM GValue :=
  (interp fuel).sendFn args ctx

/-! ## Top-level harnesses -/

/-- The ad-hoc in-memory actor the input binder falls back to. -/
def tempActor : GameObject :=
  { id := "temp_actor", parentIds := ["#object"], attributes := [] }

/-- A fresh evaluation context over a given world (executor/actor are the
binder's fallback actor; `callDepth` starts at zero). -/
def initCtx : GContext :=
  { executor := tempActor, actor := tempActor, thisObject := some tempActor,
    callDepth := 0 }

/-- Parse and execute a G program against a world, from a fresh state. -/
def evalProgram (fuel : Nat) (w : List GameObject) (code : String) :
    Except GError GValue × EvalState :=
  match parseG code with
  | .error e => (.error e, ⟨w, 0, []⟩)
  | .ok ast => execute fuel ast initCtx none ⟨w, 0, []⟩

/-! ## The input binder (`inputBinder/index.ts`) -/

/-- The actor `bindAndExecute` resolves: the `#player_prototype`
placeholder if present, otherwise the temporary in-memory actor. -/
def resolveActor (w : List GameObject) : GameObject :=
  (findObj w "#player_prototype").getD tempActor

/-- The context the binder constructs for the chosen handler. -/
def binderCtx (handler actor : GameObject) : GContext :=
  { executor := handler, actor := actor, thisObject := some handler,
    callDepth := 0 }

/-- Delivery of the handler result to the session (`bindAndExecute` lines
85-93): a nonempty-after-trim string return value is sent as a fallback,
an execution error is reported via its message, anything else produces no
session output. -/
def sessionDeliver (r : Except GError GValue × EvalState) :
    List String × EvalState :=
  match r with
  | (.ok (.str s), st) => if jsTrim s == "" then ([], st) else ([s], st)
  | (.ok _, st) => ([], st)
  | (.error e, st) => ([errMessage e], st)

/-- `InputBinder.bindAndExecute` for a Game-mode recognition carrying
`verb` and `args`: resolve the actor, search `cmd_<verb>` with
inheritance first on the actor, then on the actor's location, and execute
the first hit; otherwise send the default failure response. -/
def bindAndExecute (fuel : Nat) (verb : String) (args : List GValue)
    (st : EvalState) : List String × EvalState :=
  if verb == "" then (["What do you want to do?"], st)
  else
    let actor := resolveActor st.world
    let cmdAttrName := "cmd_" ++ verb
    if (getAttributeValue st.world actor.id cmdAttrName).isSome then
      sessionDeliver
        (executeAttribute fuel actor cmdAttrName args (binderCtx actor actor) st)
    else
      match actor.locationId with
      | some lid =>
        match findObj st.world lid with
        | some location =>
          if (getAttributeValue st.world location.id cmdAttrName).isSome then
            sessionDeliver
              (executeAttribute fuel location cmdAttrName args
                (binderCtx location actor) st)
          else
            (["I don't understand how to \"" ++ verb ++ "\"."], st)
        | none => (["I don't understand how to \"" ++ verb ++ "\"."], st)
      | none => (["I don't understand how to \"" ++ verb ++ "\"."], st)

/-! ## Termination and correctness of the BFS attribute lookup

Every iteration of the `getAttributeValue` loop strictly decreases
`potential`: a visited dequeue shortens the queue, a first visit removes
the object's weight from the unvisited pool (which pays for the enqueued
parents with one unit to spare). -/

theorem unvisitedWeight_cons_le (w : List GameObject) (i : String)
    (vis : List String) :
    unvisitedWeight w (i :: vis) ≤ unvisitedWeight w vis := by
  induction w with
  | nil => simp [unvisitedWeight]
  | cons o r ih =>
    simp only [unvisitedWeight, memStr_cons]
    by_cases h : memStr o.id vis = true
    · simp [h]; omega
    · simp only [Bool.not_eq_true] at h
      by_cases h2 : (o.id == i) = true
      · simp [h, h2]; omega
      · simp only [Bool.not_eq_true] at h2
        simp [h, h2]; omega

theorem unvisitedWeight_drop (w : List GameObject) (o : GameObject)
    (i : String) (vis : List String) (ho : findObj w i = some o)
    (hvis : memStr i vis = false) :
    unvisitedWeight w (i :: vis) + objWeight o ≤ unvisitedWeight w vis := by
  induction w with
  | nil => simp [findObj] at ho
  | cons a r ih =>
    simp only [findObj] at ho
    simp only [unvisitedWeight, memStr_cons]
    by_cases h : (a.id == i) = true
    · rw [if_pos h] at ho
      obtain rfl : a = o := by injection ho
      have hid : a.id = i := eq_of_beq h
      have := unvisitedWeight_cons_le r i vis
      simp [hid, hvis, h]
      omega
    · rw [if_neg h] at ho
      have hrec := ih ho
      simp only [Bool.not_eq_true] at h
      by_cases hm : memStr a.id vis = true
      · simp [h, hm]; omega
      · simp only [Bool.not_eq_true] at hm
        simp [h, hm]; omega

/-- The loop always finishes within its potential-derived budget — for
*every* world, including parent graphs with cycles and diamonds. -/
theorem getAttributeValueLoop_total (w : List GameObject) (attrName : String) :
    ∀ fuel q vis, potential w q vis < fuel →
      ∃ r, getAttributeValueLoop w attrName fuel q vis = some r := by
  intro fuel
  induction fuel with
  | zero => intro q vis h; omega
  | succ fuel ih =>
    intro q vis h
    match q with
    | [] => exact ⟨none, rfl⟩
    | i :: q' =>
      simp only [potential, List.length_cons] at h
      cases hv : memStr i vis with
      | true =>
        have ⟨r, hr⟩ := ih q' vis (by simp only [potential]; omega)
        exact ⟨r, by simp [getAttributeValueLoop, hv, hr]⟩
      | false =>
        cases hf : findObj w i with
        | none =>
          have hle := unvisitedWeight_cons_le w i vis
          have ⟨r, hr⟩ := ih q' (i :: vis) (by simp only [potential]; omega)
          exact ⟨r, by simp [getAttributeValueLoop, hv, hf, hr]⟩
        | some o =>
          cases hl : lookupAttr o attrName with
          | some v =>
            exact ⟨some v, by simp [getAttributeValueLoop, hv, hf, hl]⟩
          | none =>
            have hdrop := unvisitedWeight_drop w o i vis hf hv
            have hflt := filterNotVis_length_le o.parentIds (i :: vis)
            have ⟨r, hr⟩ := ih (q' ++ filterNotVis o.parentIds (i :: vis))
              (i :: vis)
              (by
                simp only [potential, List.length_append, objWeight] at *
                omega)
            exact ⟨r, by simp [getAttributeValueLoop, hv, hf, hl, hr]⟩

/-- Same budget result for the specification-side visit order. -/
theorem bfsVisitOrder_total (w : List GameObject) :
    ∀ fuel q vis, potential w q vis < fuel →
      ∃ L, bfsVisitOrder w fuel q vis = some L := by
  intro fuel
  induction fuel with
  | zero => intro q vis h; omega
  | succ fuel ih =>
    intro q vis h
    match q with
    | [] => exact ⟨[], rfl⟩
    | i :: q' =>
      simp only [potential, List.length_cons] at h
      cases hv : memStr i vis with
      | true =>
        have ⟨L, hL⟩ := ih q' vis (by simp only [potential]; omega)
        exact ⟨L, by simp [bfsVisitOrder, hv, hL]⟩
      | false =>
        cases hf : findObj w i with
        | none =>
          have hle := unvisitedWeight_cons_le w i vis
          have ⟨L, hL⟩ := ih q' (i :: vis) (by simp only [potential]; omega)
          exact ⟨i :: L, by simp [bfsVisitOrder, hv, hf, hL]⟩
        | some o =>
          have hdrop := unvisitedWeight_drop w o i vis hf hv
          have hflt := filterNotVis_length_le o.parentIds (i :: vis)
          have ⟨L, hL⟩ := ih (q' ++ filterNotVis o.parentIds (i :: vis))
            (i :: vis)
            (by
              simp only [potential, List.length_append, objWeight] at *
              omega)
          exact ⟨i :: L, by simp [bfsVisitOrder, hv, hf, hL]⟩

/-- First definition along a given id order — the reading of the
specification sentence. -/
def firstDefinition (w : List GameObject) (attrName : String)
    (l : List String) : Option GValue :=
  l.findSome? (fun i => (findObj w i).bind (fun o => lookupAttr o attrName))

/-- The loop result is the first definition along the BFS visit order:
both runs walk the same queue/visited states; where the loop stops with a
hit, the visit order has that very id next. -/
theorem getAttributeValueLoop_agree (w : List GameObject) (attrName : String) :
    ∀ fuel₁ fuel₂ q vis r L, potential w q vis < fuel₁ →
      potential w q vis < fuel₂ →
      getAttributeValueLoop w attrName fuel₁ q vis = some r →
      bfsVisitOrder w fuel₂ q vis = some L →
      r = firstDefinition w attrName L := by
  intro fuel₁
  induction fuel₁ with
  | zero => intro fuel₂ q vis r L h₁ _ _ _; omega
  | succ fuel₁ ih =>
    intro fuel₂ q vis r L h₁ h₂ hr hL
    match fuel₂ with
    | 0 => omega
    | fuel₂ + 1 =>
      match q with
      | [] =>
        simp only [getAttributeValueLoop] at hr
        simp only [bfsVisitOrder] at hL
        obtain rfl : (none : Option GValue) = r := by injection hr
        obtain rfl : ([] : List String) = L := by injection hL
        rfl
      | i :: q' =>
        simp only [potential, List.length_cons] at h₁ h₂
        cases hv : memStr i vis with
        | true =>
          simp only [getAttributeValueLoop, hv] at hr
          simp only [bfsVisitOrder, hv] at hL
          exact ih fuel₂ q' vis r L (by simp only [potential]; omega)
            (by simp only [potential]; omega) hr hL
        | false =>
          cases hf : findObj w i with
          | none =>
            have hle := unvisitedWeight_cons_le w i vis
            simp only [getAttributeValueLoop, hv, hf] at hr
            simp only [bfsVisitOrder, hv, hf] at hL
            cases hrec : bfsVisitOrder w fuel₂ q' (i :: vis) with
            | none => rw [hrec] at hL; exact absurd hL (by simp)
            | some L' =>
              rw [hrec] at hL
              obtain rfl : i :: L' = L := by injection hL
              have := ih fuel₂ q' (i :: vis) r L'
                (by simp only [potential]; omega)
                (by simp only [potential]; omega) hr hrec
              simpa [firstDefinition, List.findSome?, hf] using this
          | some o =>
            cases hl : lookupAttr o attrName with
            | some v =>
              simp only [getAttributeValueLoop, hv, hf, hl] at hr
              simp only [bfsVisitOrder, hv, hf] at hL
              obtain rfl : some v = r := by injection hr
              cases hrec : bfsVisitOrder w fuel₂
                  (q' ++ filterNotVis o.parentIds (i :: vis)) (i :: vis) with
              | none => rw [hrec] at hL; exact absurd hL (by simp)
              | some L' =>
                rw [hrec] at hL
                obtain rfl : i :: L' = L := by injection hL
                simp [firstDefinition, List.findSome?, hf, hl]
            | none =>
              have hdrop := unvisitedWeight_drop w o i vis hf hv
              have hflt := filterNotVis_length_le o.parentIds (i :: vis)
              simp only [getAttributeValueLoop, hv, hf, hl] at hr
              simp only [bfsVisitOrder, hv, hf] at hL
              cases hrec : bfsVisitOrder w fuel₂
                  (q' ++ filterNotVis o.parentIds (i :: vis)) (i :: vis) with
              | none => rw [hrec] at hL; exact absurd hL (by simp)
              | some L' =>
                rw [hrec] at hL
                obtain rfl : i :: L' = L := by injection hL
                have := ih fuel₂ (q' ++ filterNotVis o.parentIds (i :: vis))
                  (i :: vis) r L'
                  (by
                    simp only [potential, List.length_append, objWeight] at *
                    omega)
                  (by
                    simp only [potential, List.length_append, objWeight] at *
                    omega)
                  hr hrec
                simpa [firstDefinition, List.findSome?, hf, hl] using this

/-- Boolean duplicate-freeness of a list of ids. -/
def distinctStr : List String → Bool
  | [] => true
  | x :: r => !memStr x r && distinctStr r

/-- The visit order never repeats an id and never revisits the incoming
visited set: each object id is dequeued and examined at most once. -/
theorem bfsVisitOrder_distinct (w : List GameObject) :
    ∀ fuel q vis L, bfsVisitOrder w fuel q vis = some L →
      distinctStr L = true ∧ ∀ x, memStr x L = true → memStr x vis = false := by
  intro fuel
  induction fuel with
  | zero => intro q vis L h; simp [bfsVisitOrder] at h
  | succ fuel ih =>
    intro q vis L hL
    match q with
    | [] =>
      simp only [bfsVisitOrder] at hL
      obtain rfl : ([] : List String) = L := by injection hL
      exact ⟨rfl, by intro x hx; simp [memStr] at hx⟩
    | i :: q' =>
      cases hv : memStr i vis with
      | true =>
        simp only [bfsVisitOrder, hv] at hL
        exact ih q' vis L hL
      | false =>
        have finish :
            ∀ q'' L', bfsVisitOrder w fuel q'' (i :: vis) = some L' →
              i :: L' = L →
              distinctStr L = true ∧
                ∀ x, memStr x L = true → memStr x vis = false := by
          intro q'' L' hL' hcons
          obtain ⟨hd, hdisj⟩ := ih q'' (i :: vis) L' hL'
          subst hcons
          constructor
          · simp only [distinctStr, Bool.and_eq_true, Bool.not_eq_true']
            refine ⟨?_, hd⟩
            cases hmem : memStr i L' with
            | false => rfl
            | true =>
              have := hdisj i hmem
              simp [memStr_cons] at this
          · intro x hx
            simp only [memStr_cons, Bool.or_eq_true] at hx
            rcases hx with hx | hx
            · obtain rfl : x = i := eq_of_beq hx
              exact hv
            · have h3 := hdisj x hx
              simp only [memStr_cons] at h3
              cases h2 : memStr x vis
              · rfl
              · rw [h2, Bool.or_true] at h3; exact absurd h3 (by simp)
        cases hf : findObj w i with
        | none =>
          simp only [bfsVisitOrder, hv, hf] at hL
          cases hrec : bfsVisitOrder w fuel q' (i :: vis) with
          | none => rw [hrec] at hL; exact absurd hL (by simp)
          | some L' =>
            rw [hrec] at hL
            exact finish q' L' hrec (by injection hL)
        | some o =>
          simp only [bfsVisitOrder, hv, hf] at hL
          cases hrec : bfsVisitOrder w fuel
              (q' ++ filterNotVis o.parentIds (i :: vis)) (i :: vis) with
          | none => rw [hrec] at hL; exact absurd hL (by simp)
          | some L' =>
            rw [hrec] at hL
            exact finish _ L' hrec (by injection hL)

end Gaia

namespace Gaia

/-! # The claims -/

/-! ## C4: `listlength` laws -/

/-- C4: `[listlength [list a b c]]` returns 3; `[listlength "[a b c]"]`
parses the string-shaped list and returns 3; `[listlength ["[a b c]"]]` is
a one-element literal list whose sole element is that string and returns
1. -/
theorem listlength_laws :
    (evalProgram 100 [] "[listlength [list a b c]]").1
      = .ok (GValue.num 3)
    ∧ (evalProgram 100 [] "[listlength \"[a b c]\"]").1
      = .ok (GValue.num 3)
    ∧ (evalProgram 100 [] "[listlength [\"[a b c]\"]]").1
      = .ok (GValue.num 1) :=
  ⟨rfl, rfl, rfl⟩

/-! ## C5: comma/space separators in list literals -/

/-- C5 counterexample: the claim says `[a,,b,,,c]` parses equal to
`[a b c]`; in fact the parser consumes at most one comma per argument
iteration, so the second comma of a run reaches `parsePrimary` and throws
a parse failure — the two parses are not equal. -/
theorem comma_runs_reject_counterexample :
    parseG "[a,,b,,,c]"
      = .error (.parseFail "Parser: Unexpected token in expression.")
    ∧ parseG "[a b c]"
      = .ok [.mk (.str "a") [.str "b", .str "c"]]
    ∧ parseG "[a,,b,,,c]" ≠ parseG "[a b c]" := by
  have h1 : parseG "[a,,b,,,c]"
      = .error (.parseFail "Parser: Unexpected token in expression.") := rfl
  have h2 : parseG "[a b c]"
      = .ok [.mk (.str "a") [.str "b", .str "c"]] := rfl
  refine ⟨h1, h2, fun h => ?_⟩
  rw [h1, h2] at h
  exact Except.noConfusion h

/-- C5 amended: single commas are interchangeable with spaces — `[a b c]`,
`[a, b, c]` and `[ a , b , c ]` parse equal, and `[a,b,"",c]` parses to a
four-element list whose third element is the empty string — but a *run*
of commas is a parse error rather than being collapsed. -/
theorem comma_separator_laws_amended :
    parseG "[a b c]" = parseG "[a, b, c]"
    ∧ parseG "[a b c]" = parseG "[ a , b , c ]"
    ∧ parseG "[a,b,\"\",c]"
      = .ok [.mk (.str "a") [.str "b", .str "", .str "c"]]
    ∧ parseG "[a,,b,,,c]"
      = .error (.parseFail "Parser: Unexpected token in expression.") :=
  ⟨rfl, rfl, rfl, rfl⟩

/-! ## C6: division by zero -/

/-- C6 counterexample: the claim says `[/ a b]` with a zero-coercing
divisor fails; in fact the whole evaluation succeeds with the ordinary
value `null` (the builtin logs a warning and returns `null` instead of
throwing). -/
theorem division_by_zero_ok_null_counterexample :
    (evalProgram 100 [] "[/ 1 0]").1 = .ok GValue.null := rfl

/-- C6 amended: for every argument pair whose divisor coerces to zero,
the division builtin returns `null` (an ordinary value, not an error). -/
theorem division_by_zero_yields_null (a b : GValue) (rest : List GValue)
    (h : toNum b = 0) : divFn (a :: b :: rest) = GValue.null := by
  simp [divFn, h]

/-- Witness for C6's amended theorem at `[/ 1 0]`. -/
theorem division_by_zero_yields_null_witness :
    toNum (GValue.num 0) = 0
    ∧ divFn [GValue.num 1, GValue.num 0] = GValue.null :=
  ⟨rfl, division_by_zero_yields_null (GValue.num 1) (GValue.num 0) [] rfl⟩

/-! ## C9: `[equals a a]` -/

/-- C9 counterexample: the claim says `[equals a a]` is true for every
value; with `a = [list 1]` each of the two evaluations constructs a fresh
array, `===` compares the two references, and the result is `false`. -/
theorem equals_fresh_lists_counterexample :
    (evalProgram 100 [] "[equals [list 1] [list 1]]").1
      = .ok (GValue.bool false) := rfl

/-- JavaScript primitives (value-compared under `===`). -/
def isPrimJS : GValue → Bool
  | .str _ => true
  | .num _ => true
  | .bool _ => true
  | .null => true
  | .undef => true
  | _ => false

/-- C9 amended: `equals` compares primitives value-wise, so
`[equals a a]` is true whenever both occurrences evaluate to the same
primitive value; lists are compared by reference, and two evaluations of
the same list-constructing expression yield distinct references, so there
the comparison is `false`. -/
theorem equals_same_primitive_true (v : GValue) (h : isPrimJS v = true) :
    equalsFn [v, v] = GValue.bool true := by
  cases v <;> simp [isPrimJS] at h <;> simp [equalsFn, jsStrictEq]

/-- Witness for C9's amended theorem at the primitive `3`. -/
theorem equals_same_primitive_true_witness :
    isPrimJS (GValue.num 3) = true
    ∧ equalsFn [GValue.num 3, GValue.num 3] = GValue.bool true :=
  ⟨rfl, equals_same_primitive_true (GValue.num 3) rfl⟩

/-! ## C2: `if` and its branches -/

/-- C2 counterexample: the claim says `[if true T E]` never evaluates
`E`; with `E = [log "x"]` the interpreter evaluates both branch
expressions while evaluating the arguments of `if` (the head `"log"`
lands in the execution trace before `"if"` does), even though the
condition is truthy. -/
theorem if_evaluates_untaken_branch_counterexample :
    (evalProgram 100 [] "[if true 1 [log \"x\"]]").1 = .ok (GValue.num 1)
    ∧ (evalProgram 100 [] "[if true 1 [log \"x\"]]").2.trace = ["log", "if"]
    ∧ "log" ∈ (evalProgram 100 [] "[if true 1 [log \"x\"]]").2.trace :=
  ⟨rfl, rfl, by decide⟩

/-- C2 amended: `if` is an ordinary builtin whose arguments are evaluated
applicatively, so branch expressions written as nested commands are
evaluated eagerly regardless of the condition; lazy selection applies
only to branches passed as G source strings (or pre-parsed command
values): the builtin then parses and runs exactly the taken branch
string, the untaken string is never executed. -/
theorem if_string_branches_taken_only (fuel : Nat) (c : GValue)
    (sT sE : String) (ctx : GContext) (st : EvalState) :
    ifFn (fuel + 1) [c, .str sT, .str sE] ctx st
      = evalG fuel (if isFalsyJS c then sE else sT) ctx st := by
  unfold ifFn evalG
  rw [interp_succ]
  cases h : isFalsyJS c <;> simp [interpStep, headOrNull, h]

end Gaia

namespace Gaia

/-! ## C7: the recursion depth limit -/

/-- A self-recursive object: its `run` attribute re-invokes itself. -/
def recurseObj : GameObject :=
  { id := "#r", parentIds := [],
    attributes := [("run", .direct (.str "[#r]"))] }

/-- C7 counterexample: the claim says the interpreter aborts exactly at
128 frames and never shallower; running the self-recursive `[#r]` aborts
with the depth-limit failure after exactly 100 executed frames (one trace
entry per frame), i.e. on entering frame 101 — shallower than 128. -/
theorem depth_limit_before_128_counterexample :
    (evalProgram 1000 [recurseObj] "[#r]").1 = .error GError.depthLimit
    ∧ (evalProgram 1000 [recurseObj] "[#r]").2.trace.length = 100 :=
  ⟨rfl, rfl⟩

/-- An empty command sequence completes immediately at every fuel level. -/
theorem interp_execSeq_nil (fuel : Nat) (ctx : GContext)
    (ia : Option (List GValue)) :
    (interp fuel).execSeq [] ctx ia = pureE .null := by
  cases fuel <;> rfl

/-- C7 amended: the depth guard sits at `MAX_CALL_DEPTH = 100` (a
constant; no `#config` lookup exists): entering the interpreter at call
depth 100 or more aborts with the depth-limit failure before any command
runs, while at any depth below 100 the guard passes (an empty script then
completes normally). -/
theorem depth_limit_at_100 (fuel : Nat) (ast : List GCmd) (ctx : GContext)
    (ia : Option (List GValue)) (st : EvalState) :
    (100 ≤ ctx.callDepth →
      execute (fuel + 1) ast ctx ia st = (.error .depthLimit, st))
    ∧ (ctx.callDepth < 100 →
      execute (fuel + 1) [] ctx none st = (.ok .null, st)) := by
  constructor
  · intro h
    unfold execute
    rw [interp_succ]
    have hgt : ctx.callDepth + 1 > 100 := by omega
    simp [interpStep, hgt, throwE]
  · intro h
    unfold execute
    rw [interp_succ]
    have hgt : ¬ ctx.callDepth + 1 > 100 := by omega
    simp [interpStep, hgt, interp_execSeq_nil, pureE]

/-- A context at a given call depth, over the fallback actor. -/
def ctxAtDepth (d : Nat) : GContext :=
  { executor := tempActor, actor := tempActor, thisObject := none,
    callDepth := d }

/-- Witness for C7's amended theorem: at depth 100 the guard aborts, at
depth 0 it passes. -/
theorem depth_limit_at_100_witness :
    execute 5 [] (ctxAtDepth 100) none ⟨[], 0, []⟩
      = (.error .depthLimit, ⟨[], 0, []⟩)
    ∧ execute 5 [] (ctxAtDepth 0) none ⟨[], 0, []⟩
      = (.ok .null, ⟨[], 0, []⟩) :=
  ⟨(depth_limit_at_100 4 [] (ctxAtDepth 100) none _).1 (by simp [ctxAtDepth]),
   (depth_limit_at_100 4 [] (ctxAtDepth 0) none _).2 (by simp [ctxAtDepth])⟩

/-! ## C8: `send` and inherited `on_message` -/

/-- A parent defining `on_message`. -/
def parentMsgObj : GameObject :=
  { id := "#p", parentIds := [],
    attributes := [("on_message", .direct (.str "[concat \"got\"]"))] }

/-- A child that only *inherits* `on_message` from `#p`. -/
def childObj : GameObject :=
  { id := "#c", parentIds := ["#p"], attributes := [] }

/-- C8 counterexample: the claim says `send` invokes an inherited
`on_message`; sending to `#c` (which inherits `on_message = [concat
"got"]` from `#p`, as the inheritance-resolved read confirms) executes no
handler at all — the trace records only `send`, and the call returns
`null` after the internal "no handler" error is caught. -/
theorem send_inherited_on_message_counterexample :
    (evalProgram 100 [parentMsgObj, childObj] "[send #c \"hi\"]").1
      = .ok GValue.null
    ∧ (evalProgram 100 [parentMsgObj, childObj] "[send #c \"hi\"]").2.trace
      = ["send"]
    ∧ getAttributeValue [parentMsgObj, childObj] "#c" "on_message"
      = some (GValue.str "[concat \"got\"]") :=
  ⟨rfl, rfl, rfl⟩

/-- C8 amended: `send` looks `on_message` up through
`executeAttribute`, which reads only the target's *own* attribute map;
when the target lacks its own `on_message` (even if a parent defines
one), the handler invocation throws, `send` catches the error, logs a
warning, and returns `null`, leaving the state untouched. -/
theorem send_requires_own_on_message (fuel : Nat) (tid s : String)
    (ctx : GContext) (st : EvalState) (t : GameObject)
    (hfind : findObj st.world tid = some t)
    (hown : attrCode t "on_message" = none)
    (hat : strHeadIs s '@' = false) :
    sendFn (fuel + 2) [.obj tid, .str s] ctx st = (.ok .null, st) := by
  unfold sendFn
  simp only [interp_succ]
  simp [interpStep, resolveTarget, findObjM, bindE, catchE, getStateE,
    pureE, throwE, hfind, hown, hat]

/-- Witness for C8's amended theorem at the inherited-only world. -/
theorem send_requires_own_on_message_witness :
    sendFn 2 [.obj "#c", .str "hi"] initCtx ⟨[parentMsgObj, childObj], 0, []⟩
      = (.ok .null, ⟨[parentMsgObj, childObj], 0, []⟩) :=
  send_requires_own_on_message 0 "#c" "hi" initCtx
    ⟨[parentMsgObj, childObj], 0, []⟩ childObj rfl rfl rfl

/-! ## C1: inheritance-resolved attribute lookup -/

/-- An object storing a literal `null` in one attribute. -/
def nullStoringObj : GameObject :=
  { id := "#n", parentIds := [], attributes := [("c", .direct .null)] }

/-- C1: `getAttributeValue` returns the raw value of the first object in
the breadth-first left-to-right traversal of the inheritance graph whose
own attribute mapping contains the name (`specGetAttributeBFS`), for
every world — diamonds and cycles included; when no object in the closure
defines the name the result is `none`, which is distinct from a stored
`null` (`some GValue.null`). -/
theorem getAttributeValue_bfs_first_definition :
    (∀ (w : List GameObject) (objId attrName : String),
      getAttributeValue w objId attrName = specGetAttributeBFS w objId attrName)
    ∧ getAttributeValue [nullStoringObj] "#n" "c" = some GValue.null
    ∧ getAttributeValue [nullStoringObj] "#n" "d" = none := by
  refine ⟨?_, rfl, rfl⟩
  intro w objId attrName
  obtain ⟨r, hr⟩ := getAttributeValueLoop_total w attrName
    (potential w [objId] [] + 1) [objId] [] (Nat.lt_succ_self _)
  obtain ⟨L, hL⟩ := bfsVisitOrder_total w
    (potential w [objId] [] + 1) [objId] [] (Nat.lt_succ_self _)
  have h := getAttributeValueLoop_agree w attrName
    (potential w [objId] [] + 1) (potential w [objId] [] + 1) [objId] [] r L
    (Nat.lt_succ_self _) (Nat.lt_succ_self _) hr hL
  unfold getAttributeValue specGetAttributeBFS
  rw [hr, hL]
  simpa [firstDefinition] using h

/-! ## C10: termination of the BFS traversal -/

/-- Two objects in a parent cycle. -/
def cycleObjX : GameObject :=
  { id := "#x", parentIds := ["#y"], attributes := [] }

def cycleObjY : GameObject :=
  { id := "#y", parentIds := ["#x"],
    attributes := [("color", .direct (.str "red"))] }

/-- C10: for every finite object graph — cyclic or diamond-shaped parent
lists included — the `getAttributeValue` loop completes within the
explicit `potential`-derived iteration budget (the visited set makes each
object id be dequeued and examined at most once, as the duplicate-free
visit order states); a concrete two-object parent cycle resolves
normally. -/
theorem getAttributeValue_terminates :
    (∀ (w : List GameObject) (objId attrName : String),
      (∃ r, getAttributeValueLoop w attrName
        (potential w [objId] [] + 1) [objId] [] = some r)
      ∧ distinctStr
          ((bfsVisitOrder w (potential w [objId] [] + 1) [objId] []).getD [])
        = true)
    ∧ getAttributeValue [cycleObjX, cycleObjY] "#x" "color"
      = some (GValue.str "red") := by
  refine ⟨?_, rfl⟩
  intro w objId attrName
  refine ⟨getAttributeValueLoop_total w attrName
    (potential w [objId] [] + 1) [objId] [] (Nat.lt_succ_self _), ?_⟩
  obtain ⟨L, hL⟩ := bfsVisitOrder_total w
    (potential w [objId] [] + 1) [objId] [] (Nat.lt_succ_self _)
  rw [hL]
  simpa using (bfsVisitOrder_distinct w _ [objId] [] L hL).1

end Gaia

namespace Gaia

/-! ## C3: the Game-mode command search order -/

/-- The placeholder actor with its own (inheritable) `cmd_look` handler,
located in `#room`.  The handler's second command produces the marker
string (the first command's arguments are replaced by the binder-supplied
argument list). -/
def actorBoth : GameObject :=
  { id := "#player_prototype", parentIds := [],
    attributes := [("cmd_look", .direct (.str "[log][concat \"from actor\"]"))],
    locationId := some "#room" }

/-- The same actor without any command handler of its own. -/
def actorNoCmd : GameObject :=
  { id := "#player_prototype", parentIds := [], attributes := [],
    locationId := some "#room" }

/-- The same actor with neither handler nor location. -/
def actorBare : GameObject :=
  { id := "#player_prototype", parentIds := [], attributes := [] }

/-- The room, carrying its own `cmd_look` handler. -/
def roomHandler : GameObject :=
  { id := "#room", parentIds := [],
    attributes := [("cmd_look", .direct (.str "[log][concat \"from room\"]"))] }

def stBoth : EvalState := ⟨[actorBoth, roomHandler], 0, []⟩
def stRoomOnly : EvalState := ⟨[actorNoCmd, roomHandler], 0, []⟩
def stNeither : EvalState := ⟨[actorBare], 0, []⟩

/-- C3 counterexample: the claim's search order puts the actor's location
before the actor itself (direct object, location, actor, user,
`#commands`); with `cmd_look` defined on *both* the actor and the room,
the binder executes the actor's handler — the session receives
`"from actor"`, not `"from room"`. -/
theorem binder_order_counterexample :
    (bindAndExecute 500 "look" [] stBoth).1 = ["from actor"]
    ∧ (bindAndExecute 500 "look" [] stBoth).1 ≠ ["from room"] := by
  have h : (bindAndExecute 500 "look" [] stBoth).1 = ["from actor"] := rfl
  refine ⟨h, ?_⟩
  rw [h]
  decide

/-- C3 amended: Game-mode binding resolves the actor (the
`#player_prototype` placeholder, else the temporary actor) and searches
the inheritance-resolved attribute `cmd_<verb>` on the actor first, then
on the actor's location; no direct object, transient user object or
`#commands` object is consulted.  The first hit is executed with
`executor = this = handler object`; when neither defines the attribute
the session receives the default failure response. -/
theorem binder_search_order_amended (fuel : Nat) (verb : String)
    (args : List GValue) (st : EvalState)
    (hv : (verb == "") = false) :
    ((getAttributeValue st.world (resolveActor st.world).id
        ("cmd_" ++ verb)).isSome = true →
      bindAndExecute fuel verb args st
        = sessionDeliver (executeAttribute fuel (resolveActor st.world)
            ("cmd_" ++ verb) args
            (binderCtx (resolveActor st.world) (resolveActor st.world)) st))
    ∧ (∀ lid location,
        (getAttributeValue st.world (resolveActor st.world).id
          ("cmd_" ++ verb)).isSome = false →
        (resolveActor st.world).locationId = some lid →
        findObj st.world lid = some location →
        (getAttributeValue st.world location.id ("cmd_" ++ verb)).isSome = true →
        bindAndExecute fuel verb args st
          = sessionDeliver (executeAttribute fuel location ("cmd_" ++ verb) args
              (binderCtx location (resolveActor st.world)) st))
    ∧ ((getAttributeValue st.world (resolveActor st.world).id
          ("cmd_" ++ verb)).isSome = false →
       (∀ lid location, (resolveActor st.world).locationId = some lid →
          findObj st.world lid = some location →
          (getAttributeValue st.world location.id ("cmd_" ++ verb)).isSome
            = false) →
       bindAndExecute fuel verb args st
         = (["I don't understand how to \"" ++ verb ++ "\"."], st)) := by
  refine ⟨?_, ?_, ?_⟩
  · intro h1
    simp [bindAndExecute, hv, h1]
  · intro lid location h1 h2 h3 h4
    simp [bindAndExecute, hv, h1, h2, h3, h4]
  · intro h1 h2
    simp only [bindAndExecute, hv, h1]
    cases hloc : (resolveActor st.world).locationId with
    | none => simp
    | some lid =>
      cases hfind : findObj st.world lid with
      | none => simp [hfind]
      | some location => simp [hfind, h2 lid location hloc hfind]

/-- Witness for C3's amended theorem at the three concrete worlds
(handler on both actor and room; handler on the room only; no handler
anywhere). -/
theorem binder_search_order_amended_witness :
    bindAndExecute 500 "look" [] stBoth
      = sessionDeliver (executeAttribute 500 (resolveActor stBoth.world)
          "cmd_look" []
          (binderCtx (resolveActor stBoth.world) (resolveActor stBoth.world))
          stBoth)
    ∧ bindAndExecute 500 "look" [] stRoomOnly
      = sessionDeliver (executeAttribute 500 roomHandler "cmd_look" []
          (binderCtx roomHandler (resolveActor stRoomOnly.world)) stRoomOnly)
    ∧ bindAndExecute 500 "look" [] stNeither
      = (["I don't understand how to \"look\"."], stNeither) := by
  refine ⟨(binder_search_order_amended 500 "look" [] stBoth rfl).1 rfl, ?_, ?_⟩
  · exact (binder_search_order_amended 500 "look" [] stRoomOnly rfl).2.1
      "#room" roomHandler rfl rfl rfl rfl
  · refine (binder_search_order_amended 500 "look" [] stNeither rfl).2.2 rfl ?_
    intro lid location h1 _
    rw [show (resolveActor stNeither.world).locationId = none from rfl] at h1
    exact Option.noConfusion h1

end Gaia
